import Mathlib

/-!
Shallow embedding of `src/scansboms.py`: a bulk SBOM submission-and-polling
orchestrator.  Pure data flow is modelled by total functions over explicit
transport outcomes; the concurrent run (main enumeration loop plus one
`scan_worker` thread per file, sharing a semaphore and a lock-guarded counter)
is modelled as a small-step transition system over the shared state, with each
thread contributing its sequence of atomic shared-state actions.
-/

namespace SbomScanner

/-- `STATUS_CHECK_INTERVAL` (line 12): seconds between status checks. -/
def STATUS_CHECK_INTERVAL : Nat := 10

/-- `MAX_CONCURRENT_SCANS` (line 14): semaphore capacity. -/
def MAX_CONCURRENT_SCANS : Nat := 10

/-- Python truthiness of an optional string (`if not x` with `x` either
`None` or a `str`): `None` and the empty string are falsy. -/
def truthyOpt : Option String → Bool
  | none => false
  | some s => !s.isEmpty

/-- Splitting a character list on a separator character, keeping empty
segments, as Python `str.split(sep)` does on the list of characters. -/
def splitOnChar (c : Char) : List Char → List (List Char)
  | [] => [[]]
  | x :: xs =>
    let r := splitOnChar c xs
    if x = c then [] :: r
    else
      match r with
      | [] => [[x]]
      | y :: ys => (x :: y) :: ys

/-- Python `name_without_ext.rsplit('_', 2)` (line 32): split from the right
on `'_'` at most twice, so at most three parts come back and the leftmost
part keeps any remaining underscores. -/
def rsplit2Underscore (s : String) : List String :=
  let parts := (splitOnChar '_' s.data).map (fun l => String.mk l)
  if parts.length ≤ 3 then parts
  else
    [String.intercalate "_" (parts.take (parts.length - 2)),
     parts.getD (parts.length - 2) "",
     parts.getD (parts.length - 1) ""]

/-- `parse_filename` (lines 16-40) applied to the extension-stripped basename
(`os.path.basename` / `os.path.splitext` are excluded filesystem glue): the
stem is rsplit on `'_'` into at most three parts; any count other than three
is the failure return `(None, None, None)`, modelled as `none`. -/
def parse_filename (stem : String) : Option (String × String × String) :=
  match rsplit2Underscore stem with
  | [a, st, i] => some (a, st, i)
  | _ => none

/-- The guard `if not all([app_name, stage, app_id])` in `scan_worker`
(line 144): parsing must succeed and all three parts must be truthy
(non-empty) strings. -/
def parseOk (stem : String) : Bool :=
  match parse_filename stem with
  | none => false
  | some (a, st, i) => !a.isEmpty && !st.isEmpty && !i.isEmpty

/-- `response.raise_for_status()` raises `HTTPError` exactly for 4xx/5xx
status codes. -/
def isHttpErrorStatus (code : Nat) : Bool :=
  decide (400 ≤ code) && decide (code < 600)

/-- An HTTP response to the submission POST, as far as `submit_sbom_scan`
inspects it: the status code, the body text (used only in diagnostics), and
the `statusUrl` field of the JSON payload (absent field modelled as `none`). -/
structure SubmitResponse where
  statusCode : Nat
  bodyText : String
  statusUrl : Option String
deriving DecidableEq

/-- The transport outcome of one submission attempt, mirroring the
`try`/`except` ladder of `submit_sbom_scan` (lines 58-90): the file read may
fail (`IOError`), the POST may fail at transport level
(`requests.exceptions.RequestException`, which covers both connection errors
and timeouts), or a response arrives. -/
inductive SubmitOutcome where
  | fileError (msg : String)
  | connError (msg : String)
  | timeoutErr (msg : String)
  | response (r : SubmitResponse)
deriving DecidableEq

/-- `submit_sbom_scan` (lines 42-90), as a function of the transport outcome:
every exception path is caught and returns `None`; `raise_for_status` turns
4xx/5xx into the caught `HTTPError`; a 202 response returns the payload's
`statusUrl` field (which may itself be absent); any other accepted status
code returns `None`. -/
def submit_sbom_scan : SubmitOutcome → Option String
  | .fileError _ => none
  | .connError _ => none
  | .timeoutErr _ => none
  | .response r =>
    if isHttpErrorStatus r.statusCode then none
    else if r.statusCode = 202 then r.statusUrl
    else none

/-- An HTTP response to the status GET, as far as `check_scan_status`
inspects it: status code, the JSON fields `isError` (defaulted to false),
`errorMessage`, and `reportHtmlUrl` (checked for Python truthiness). -/
structure StatusResponse where
  statusCode : Nat
  isError : Bool
  errorMessage : Option String
  reportHtmlUrl : Option String
deriving DecidableEq

/-- The transport outcome of one status check: either a
`requests.exceptions.RequestException` (network/transport error) or a
response. -/
inductive StatusOutcome where
  | netError (msg : String)
  | response (r : StatusResponse)
deriving DecidableEq

/-- `check_scan_status` (lines 92-127): `True` means the scan is complete.
A transport error (including the `HTTPError` that `raise_for_status` raises
for 4xx/5xx, caught by the same `except RequestException` clause) returns
`False` so the caller keeps retrying; `isError` truthy returns `True`
(complete with error); a truthy `reportHtmlUrl` returns `True` (complete
successfully); otherwise `False` (still in progress). -/
def check_scan_status : StatusOutcome → Bool
  | .netError _ => false
  | .response r =>
    if isHttpErrorStatus r.statusCode then false
    else if r.isError then true
    else if truthyOpt r.reportHtmlUrl then true
    else false

/-- Whether the check that ends the polling loop ended it through the
`isError` branch of `check_scan_status` (scan complete, but the server
reported an analysis error) rather than the `reportHtmlUrl` branch. -/
def completionIsError : StatusOutcome → Bool
  | .netError _ => false
  | .response r => if isHttpErrorStatus r.statusCode then false else r.isError

/-- The observable events of one `scan_worker` thread, in program order:
lock-guarded counter increments, the semaphore release, sleeps, and calls to
`check_scan_status`. -/
inductive WorkerEvent where
  | counterInc
  | semRelease
  | sleepSec (n : Nat)
  | statusCheck
deriving DecidableEq

/-- One iteration of the polling loop (lines 158-161): sleep
`STATUS_CHECK_INTERVAL` seconds, then one status check. -/
def sleepCheck : List WorkerEvent :=
  [WorkerEvent.sleepSec STATUS_CHECK_INTERVAL, WorkerEvent.statusCheck]

/-- Event trace of the polling loop `while True: sleep; if check: break`
run against the stream `statuses` of per-check transport outcomes, starting
at check index `i`.  `fuel` bounds how many iterations we unfold; `none`
means the loop has not exited within `fuel` iterations. -/
def pollEvents (statuses : Nat → StatusOutcome) : Nat → Nat → Option (List WorkerEvent)
  | 0, _ => none
  | fuel + 1, i =>
    if check_scan_status (statuses i) then some sleepCheck
    else (pollEvents statuses fuel (i + 1)).map (sleepCheck ++ ·)

/-- Index of the status check on which the polling loop breaks, if it does
so within `fuel` iterations starting from check index `i`. -/
def pollBreak (statuses : Nat → StatusOutcome) : Nat → Nat → Option Nat
  | 0, _ => none
  | fuel + 1, i =>
    if check_scan_status (statuses i) then some i
    else pollBreak statuses fuel (i + 1)

/-- The environment one `scan_worker` call runs against: the
extension-stripped basename of its file, the transport outcome of its
submission attempt, and the stream of transport outcomes of its status
checks. -/
structure WorkerEnv where
  stem : String
  submitOutcome : SubmitOutcome
  statuses : Nat → StatusOutcome

/-- Event trace of the `try` block of `scan_worker` (lines 142-161): a parse
failure increments the counter and returns; a falsy `status_url` (submission
failure) increments the counter and returns; otherwise the polling loop
runs.  `none` means the polling loop has not exited within `fuel`
iterations. -/
def tryEvents (env : WorkerEnv) (fuel : Nat) : Option (List WorkerEvent) :=
  if !parseOk env.stem then some [WorkerEvent.counterInc]
  else if !truthyOpt (submit_sbom_scan env.submitOutcome) then some [WorkerEvent.counterInc]
  else pollEvents env.statuses fuel 0

/-- Full event trace of `scan_worker` (lines 142-170): whatever the `try`
block did, the `finally` block (lines 162-167) releases the semaphore and
then increments the counter under the lock. -/
def scan_worker_events (env : WorkerEnv) (fuel : Nat) : Option (List WorkerEvent) :=
  (tryEvents env fuel).map (· ++ [WorkerEvent.semRelease, WorkerEvent.counterInc])

/-- The spec's per-artifact terminal outcomes. -/
inductive LifecycleOutcome where
  | Succeeded
  | FailedAtSubmission
  | FailedAtCompletion
  | ParseSkipped
deriving DecidableEq

/-- The terminal outcome a `scan_worker` run reaches, read off the branch it
exits through: the parse-failure return, the falsy-`status_url` return, or
the polling loop breaking on a completed check (classified by which branch
of `check_scan_status` reported completion). -/
def worker_outcome (env : WorkerEnv) (fuel : Nat) : Option LifecycleOutcome :=
  if !parseOk env.stem then some LifecycleOutcome.ParseSkipped
  else if !truthyOpt (submit_sbom_scan env.submitOutcome) then
    some LifecycleOutcome.FailedAtSubmission
  else
    (pollBreak env.statuses fuel 0).map fun j =>
      if completionIsError (env.statuses j) then LifecycleOutcome.FailedAtCompletion
      else LifecycleOutcome.Succeeded

/-! ## Shared-state interleaving model

The only shared mutable state of a run is the semaphore count and the
lock-guarded `processed_counter` (plus the derived progress print).  Each
thread's effect on that state is a sequence of atomic actions: the main loop
performs `acquire` before launching each worker (line 207), and each worker
performs `release` and lock-guarded `inc` actions.  A run is an arbitrary
interleaving of those per-thread sequences, subject to `acquire` blocking
while the count is zero. -/

/-- An atomic operation on the shared state. -/
inductive Action where
  | acquire
  | release
  | inc
deriving DecidableEq

/-- The shared-state action (if any) a worker event performs. -/
def sharedOf : WorkerEvent → Option Action
  | .counterInc => some Action.inc
  | .semRelease => some Action.release
  | _ => none

/-- The sequence of atomic shared-state actions in a worker event trace. -/
def sharedActions (evs : List WorkerEvent) : List Action :=
  evs.filterMap sharedOf

/-- Release potential of a pending action sequence: the largest net number
of `release`s over `acquire`s any prefix of it can perform (the maximum
transient rise of the free-slot count it can cause). -/
def mpn : List Action → Nat
  | [] => 0
  | .acquire :: l => mpn l - 1
  | .release :: l => mpn l + 1
  | .inc :: l => mpn l

/-- Sum of release potentials over all pending thread sequences. -/
def sumMpn (ts : List (List Action)) : Nat := (ts.map mpn).sum

/-- Total occurrences of action `a` over all pending thread sequences. -/
def sumCount (a : Action) (ts : List (List Action)) : Nat :=
  (ts.map (fun l => l.count a)).sum

/-- Shared state of a run: the semaphore's free-slot count, the
`processed_counter` value, and the still-pending action sequence of every
thread. -/
structure Sys where
  free : Nat
  counter : Nat
  tasks : List (List Action)
deriving DecidableEq

/-- One atomic step of the run: some thread `i` performs the head of its
pending sequence.  `semaphore.acquire()` is only enabled while the free-slot
count is positive (it blocks otherwise); `release` increments it; `inc`
increments the shared counter under the lock. -/
inductive SysStep : Sys → Sys → Prop where
  | acquire (s : Sys) (i : Nat) (rest : List Action)
      (hget : s.tasks.get? i = some (Action.acquire :: rest)) (hfree : 0 < s.free) :
      SysStep s ⟨s.free - 1, s.counter, s.tasks.set i rest⟩
  | release (s : Sys) (i : Nat) (rest : List Action)
      (hget : s.tasks.get? i = some (Action.release :: rest)) :
      SysStep s ⟨s.free + 1, s.counter, s.tasks.set i rest⟩
  | inc (s : Sys) (i : Nat) (rest : List Action)
      (hget : s.tasks.get? i = some (Action.inc :: rest)) :
      SysStep s ⟨s.free, s.counter + 1, s.tasks.set i rest⟩

/-- Reachability in zero or more atomic steps. -/
def Reach : Sys → Sys → Prop := Relation.ReflTransGen SysStep

/-- Initial state of a run with `maxConc` semaphore slots: the counter is 0
and each launched worker is represented by the main loop's `acquire` for it
(line 207) followed by that worker's own shared-state actions. -/
def initSys (maxConc : Nat) (bodies : List (List Action)) : Sys :=
  ⟨maxConc, 0, bodies.map fun w => Action.acquire :: w⟩

/-- `with lock: processed_counter[0] += 1; current_count = processed_counter[0]`
(lines 165-167): the lock makes the increment and the snapshot read one
atomic unit; the returned pair is the new counter value and the snapshot. -/
def recordCompletion (c : Nat) : Nat × Nat := (c + 1, c + 1)

/-- `n` consecutive atomic `recordCompletion` units starting from counter
value `c` (the lock linearizes concurrent callers into some such sequence):
the final counter value and the list of snapshots the callers observed. -/
def runCompletions : Nat → Nat → Nat × List Nat
  | c, 0 => (c, [])
  | c, n + 1 =>
    let st := recordCompletion c
    let rest := runCompletions st.1 n
    (rest.1, st.2 :: rest.2)

/-! Concrete environments used to evaluate the model on specific inputs. -/

/-- A worker environment whose filename stem fails to parse (one part). -/
def envParseFail : WorkerEnv :=
  ⟨"bad", SubmitOutcome.connError "unreachable", fun _ => StatusOutcome.netError "n"⟩

/-- A worker environment with a parseable stem whose submission fails with a
connection error. -/
def envSubmitFail : WorkerEnv :=
  ⟨"app_build_id1", SubmitOutcome.connError "refused", fun _ => StatusOutcome.netError "n"⟩

/-- A status response meaning "still in progress". -/
def respInProgress : StatusResponse := ⟨200, false, none, none⟩

/-- A status response meaning "completed successfully, report available". -/
def respSuccess : StatusResponse := ⟨200, false, none, some "report7"⟩

/-- A worker environment whose submission is accepted and whose first status
check reports in-progress, second reports success. -/
def envPollTwice : WorkerEnv :=
  ⟨"app_build_id1", SubmitOutcome.response ⟨202, "", some "api/status/7"⟩,
   fun n => if n = 0 then StatusOutcome.response respInProgress
            else StatusOutcome.response respSuccess⟩

/-! ## Helper lemmas -/

/-- Updating entry `i` of a list changes a mapped sum by swapping the image
of the old entry for the image of the new one. -/
lemma map_sum_set_nat (f : List Action → Nat) :
    ∀ (l : List (List Action)) (i : Nat) (x y : List Action),
      l.get? i = some y →
      ((l.set i x).map f).sum + f y = (l.map f).sum + f x := by
  intro l
  induction l with
  | nil => intro i x y h; simp [List.get?] at h
  | cons hd tl ih =>
    intro i x y h
    cases i with
    | zero =>
      simp only [List.get?] at h
      injection h with h
      subst h
      simp [List.set]
      omega
    | succ n =>
      simp only [List.get?] at h
      have e := ih n x y h
      simp only [List.set, List.map, List.sum_cons]
      omega

/-- Each atomic step preserves the potential bound
`free + sumMpn tasks ≤ maxConc`. -/
lemma sysStep_potential (maxConc : Nat) (a b : Sys) (h : SysStep a b)
    (ha : a.free + sumMpn a.tasks ≤ maxConc) :
    b.free + sumMpn b.tasks ≤ maxConc := by
  cases h with
  | acquire i rest hget hfree =>
    have e := map_sum_set_nat mpn a.tasks i rest (Action.acquire :: rest) hget
    have em : mpn (Action.acquire :: rest) = mpn rest - 1 := rfl
    simp only [sumMpn] at *
    omega
  | release i rest hget =>
    have e := map_sum_set_nat mpn a.tasks i rest (Action.release :: rest) hget
    have em : mpn (Action.release :: rest) = mpn rest + 1 := rfl
    simp only [sumMpn] at *
    omega
  | inc i rest hget =>
    have e := map_sum_set_nat mpn a.tasks i rest (Action.inc :: rest) hget
    have em : mpn (Action.inc :: rest) = mpn rest := rfl
    simp only [sumMpn] at *
    omega

/-- Each atomic step preserves the gate accounting quantity
`free + pending releases - pending acquires`. -/
lemma sysStep_gateAccount (a b : Sys) (h : SysStep a b) :
    (b.free : Int) + sumCount Action.release b.tasks - sumCount Action.acquire b.tasks
      = (a.free : Int) + sumCount Action.release a.tasks - sumCount Action.acquire a.tasks := by
  cases h with
  | acquire i rest hget hfree =>
    have ea := map_sum_set_nat (fun l => l.count Action.acquire) a.tasks i rest
      (Action.acquire :: rest) hget
    have er := map_sum_set_nat (fun l => l.count Action.release) a.tasks i rest
      (Action.acquire :: rest) hget
    have ca : (Action.acquire :: rest).count Action.acquire = rest.count Action.acquire + 1 := by
      simp [List.count_cons]
    have cr : (Action.acquire :: rest).count Action.release = rest.count Action.release := by
      simp [List.count_cons]
    simp only [sumCount] at *
    omega
  | release i rest hget =>
    have ea := map_sum_set_nat (fun l => l.count Action.acquire) a.tasks i rest
      (Action.release :: rest) hget
    have er := map_sum_set_nat (fun l => l.count Action.release) a.tasks i rest
      (Action.release :: rest) hget
    have ca : (Action.release :: rest).count Action.acquire = rest.count Action.acquire := by
      simp [List.count_cons]
    have cr : (Action.release :: rest).count Action.release = rest.count Action.release + 1 := by
      simp [List.count_cons]
    simp only [sumCount] at *
    omega
  | inc i rest hget =>
    have ea := map_sum_set_nat (fun l => l.count Action.acquire) a.tasks i rest
      (Action.inc :: rest) hget
    have er := map_sum_set_nat (fun l => l.count Action.release) a.tasks i rest
      (Action.inc :: rest) hget
    have ca : (Action.inc :: rest).count Action.acquire = rest.count Action.acquire := by
      simp [List.count_cons]
    have cr : (Action.inc :: rest).count Action.release = rest.count Action.release := by
      simp [List.count_cons]
    simp only [sumCount] at *
    omega

/-- Each atomic step preserves the counter accounting quantity
`counter + pending increments`. -/
lemma sysStep_counterAccount (a b : Sys) (h : SysStep a b) :
    b.counter + sumCount Action.inc b.tasks = a.counter + sumCount Action.inc a.tasks := by
  cases h with
  | acquire i rest hget hfree =>
    have e := map_sum_set_nat (fun l => l.count Action.inc) a.tasks i rest
      (Action.acquire :: rest) hget
    have c : (Action.acquire :: rest).count Action.inc = rest.count Action.inc := by
      simp [List.count_cons]
    simp only [sumCount] at *
    omega
  | release i rest hget =>
    have e := map_sum_set_nat (fun l => l.count Action.inc) a.tasks i rest
      (Action.release :: rest) hget
    have c : (Action.release :: rest).count Action.inc = rest.count Action.inc := by
      simp [List.count_cons]
    simp only [sumCount] at *
    omega
  | inc i rest hget =>
    have e := map_sum_set_nat (fun l => l.count Action.inc) a.tasks i rest
      (Action.inc :: rest) hget
    have c : (Action.inc :: rest).count Action.inc = rest.count Action.inc + 1 := by
      simp [List.count_cons]
    simp only [sumCount] at *
    omega

/-- The potential bound holds at every reachable state. -/
lemma reach_potential (maxConc : Nat) {s0 s : Sys} (h : Reach s0 s)
    (h0 : s0.free + sumMpn s0.tasks ≤ maxConc) :
    s.free + sumMpn s.tasks ≤ maxConc := by
  induction h with
  | refl => exact h0
  | tail _ hst ih => exact sysStep_potential maxConc _ _ hst ih

/-- The gate accounting quantity is constant along any run. -/
lemma reach_gateAccount {s0 s : Sys} (h : Reach s0 s) :
    (s.free : Int) + sumCount Action.release s.tasks - sumCount Action.acquire s.tasks
      = (s0.free : Int) + sumCount Action.release s0.tasks
        - sumCount Action.acquire s0.tasks := by
  induction h with
  | refl => rfl
  | tail _ hst ih => rw [sysStep_gateAccount _ _ hst]; exact ih

/-- The counter accounting quantity is constant along any run. -/
lemma reach_counterAccount {s0 s : Sys} (h : Reach s0 s) :
    s.counter + sumCount Action.inc s.tasks
      = s0.counter + sumCount Action.inc s0.tasks := by
  induction h with
  | refl => rfl
  | tail _ hst ih => rw [sysStep_counterAccount _ _ hst]; exact ih

/-- If every pending sequence is empty, every action total is zero. -/
lemma sumCount_all_nil (a : Action) (ts : List (List Action))
    (h : ∀ l ∈ ts, l = []) : sumCount a ts = 0 := by
  simp only [sumCount]
  apply List.sum_eq_zero
  intro x hx
  simp only [List.mem_map] at hx
  obtain ⟨l, hl, rfl⟩ := hx
  rw [h l hl]
  rfl

/-- At the initial state, if every worker body has release potential at most
one, the total release potential is zero: the main loop's `acquire` in
front of each body absorbs the one release that body will perform. -/
lemma sumMpn_init (bodies : List (List Action)) (h : ∀ w ∈ bodies, mpn w ≤ 1) :
    sumMpn (bodies.map fun w => Action.acquire :: w) = 0 := by
  induction bodies with
  | nil => rfl
  | cons hd tl ih =>
    have hhd := h hd (by simp)
    have htl := ih fun w hw => h w (by simp [hw])
    have em : mpn (Action.acquire :: hd) = mpn hd - 1 := rfl
    simp only [sumMpn, List.map, List.sum_cons] at *
    omega

/-- Pending-acquire total of the initial state: one per descriptor, given
that worker bodies themselves never acquire. -/
lemma sumCount_init_acquire (bodies : List (List Action))
    (h : ∀ w ∈ bodies, w.count Action.acquire = 0) :
    sumCount Action.acquire (bodies.map fun w => Action.acquire :: w) = bodies.length := by
  induction bodies with
  | nil => rfl
  | cons hd tl ih =>
    have hhd := h hd (by simp)
    have htl := ih fun w hw => h w (by simp [hw])
    have c : (Action.acquire :: hd).count Action.acquire = hd.count Action.acquire + 1 := by
      simp [List.count_cons]
    simp only [sumCount, List.map, List.sum_cons, List.length_cons] at *
    omega

/-- Pending-release total of the initial state: one per descriptor, given
that each worker body releases exactly once. -/
lemma sumCount_init_release (bodies : List (List Action))
    (h : ∀ w ∈ bodies, w.count Action.release = 1) :
    sumCount Action.release (bodies.map fun w => Action.acquire :: w) = bodies.length := by
  induction bodies with
  | nil => rfl
  | cons hd tl ih =>
    have hhd := h hd (by simp)
    have htl := ih fun w hw => h w (by simp [hw])
    have c : (Action.acquire :: hd).count Action.release = hd.count Action.release := by
      simp [List.count_cons]
    simp only [sumCount, List.map, List.sum_cons, List.length_cons] at *
    omega

/-- Pending-increment total of `N` one-increment tasks. -/
lemma sumCount_replicate_inc (N : Nat) :
    sumCount Action.inc (List.replicate N [Action.inc]) = N := by
  induction N with
  | zero => rfl
  | succ n ih =>
    have c : ([Action.inc] : List Action).count Action.inc = 1 := by decide
    simp only [List.replicate_succ, sumCount, List.map, List.sum_cons] at *
    omega

/-- Every event the polling loop emits is a sleep of the configured interval
or a status check. -/
lemma pollEvents_members (statuses : Nat → StatusOutcome) :
    ∀ (fuel i : Nat) (evs : List WorkerEvent),
      pollEvents statuses fuel i = some evs →
      ∀ e ∈ evs, e = WorkerEvent.sleepSec STATUS_CHECK_INTERVAL ∨ e = WorkerEvent.statusCheck := by
  intro fuel
  induction fuel with
  | zero => intro i evs h; simp [pollEvents] at h
  | succ f ih =>
    intro i evs h
    simp only [pollEvents] at h
    by_cases hc : check_scan_status (statuses i)
    · rw [if_pos hc] at h
      injection h with h
      subst h
      intro e he
      simp [sleepCheck] at he
      rcases he with he | he <;> simp [he]
    · rw [if_neg hc] at h
      simp only [Option.map_eq_some'] at h
      obtain ⟨tail, htail, rfl⟩ := h
      intro e he
      simp only [List.mem_append] at he
      rcases he with he | he
      · simp [sleepCheck] at he
        rcases he with he | he <;> simp [he]
      · exact ih (i + 1) tail htail e he

/-- The `try` block of `scan_worker` never releases the semaphore: the only
release is in the `finally` block. -/
lemma tryEvents_no_release (env : WorkerEnv) (fuel : Nat) (evs : List WorkerEvent)
    (h : tryEvents env fuel = some evs) : WorkerEvent.semRelease ∉ evs := by
  unfold tryEvents at h
  by_cases hp : parseOk env.stem
  · rw [if_neg (by simp [hp])] at h
    by_cases hs : truthyOpt (submit_sbom_scan env.submitOutcome)
    · rw [if_neg (by simp [hs])] at h
      intro hmem
      rcases pollEvents_members env.statuses fuel 0 evs h _ hmem with he | he <;> simp at he
    · rw [if_pos (by simp [hs])] at h
      injection h with h
      subst h
      simp
  · rw [if_pos (by simp [hp])] at h
    injection h with h
    subst h
    simp

/-- The shared-state actions of any completed `scan_worker` run form one of
two sequences: the failure paths increment the counter inside the `try`
block and then the `finally` block releases and increments again, while the
polling path only performs the `finally` block's release and increment. -/
lemma scan_worker_shared (env : WorkerEnv) (fuel : Nat) (evs : List WorkerEvent)
    (h : scan_worker_events env fuel = some evs) :
    sharedActions evs = [Action.inc, Action.release, Action.inc] ∨
    sharedActions evs = [Action.release, Action.inc] := by
  unfold scan_worker_events at h
  simp only [Option.map_eq_some'] at h
  obtain ⟨tryEvs, htry, rfl⟩ := h
  unfold tryEvents at htry
  by_cases hp : parseOk env.stem
  · rw [if_neg (by simp [hp])] at htry
    by_cases hs : truthyOpt (submit_sbom_scan env.submitOutcome)
    · rw [if_neg (by simp [hs])] at htry
      right
      have hmem := pollEvents_members env.statuses fuel 0 tryEvs htry
      simp only [sharedActions, List.filterMap_append]
      have hnil : tryEvs.filterMap sharedOf = [] := by
        rw [List.filterMap_eq_nil_iff]
        intro e he
        rcases hmem e he with rfl | rfl <;> rfl
      rw [hnil]
      rfl
    · rw [if_pos (by simp [hs])] at htry
      injection htry with htry
      subst htry
      left
      rfl
  · rw [if_pos (by simp [hp])] at htry
    injection htry with htry
    subst htry
    left
    rfl

/-- If the first completed status check is the one at index `i + k`, the
polling loop performs exactly `k + 1` sleep-then-check iterations. -/
lemma pollEvents_first_true (statuses : Nat → StatusOutcome) :
    ∀ (k i fuel : Nat), k < fuel →
      (∀ j, j < k → check_scan_status (statuses (i + j)) = false) →
      check_scan_status (statuses (i + k)) = true →
      pollEvents statuses fuel i = some ((List.replicate (k + 1) sleepCheck).flatten) := by
  intro k
  induction k with
  | zero =>
    intro i fuel hf h0 hk
    cases fuel with
    | zero => omega
    | succ f =>
      simp only [Nat.add_zero] at hk
      simp [pollEvents, hk]
  | succ k ih =>
    intro i fuel hf hlt hk
    cases fuel with
    | zero => omega
    | succ f =>
      have h0 : check_scan_status (statuses i) = false := by
        have := hlt 0 (by omega)
        simpa using this
      have hlt' : ∀ j, j < k → check_scan_status (statuses (i + 1 + j)) = false := by
        intro j hj
        have e : i + 1 + j = i + (j + 1) := by omega
        rw [e]
        exact hlt (j + 1) (by omega)
      have hk' : check_scan_status (statuses (i + 1 + k)) = true := by
        have e : i + 1 + k = i + (k + 1) := by omega
        rw [e]
        exact hk
      have hrec := ih (i + 1) f (by omega) hlt' hk'
      simp [pollEvents, h0, hrec, List.replicate_succ]

/-- If the first completed status check is the one at index `i + k`, the
polling loop breaks on that check. -/
lemma pollBreak_first_true (statuses : Nat → StatusOutcome) :
    ∀ (k i fuel : Nat), k < fuel →
      (∀ j, j < k → check_scan_status (statuses (i + j)) = false) →
      check_scan_status (statuses (i + k)) = true →
      pollBreak statuses fuel i = some (i + k) := by
  intro k
  induction k with
  | zero =>
    intro i fuel hf h0 hk
    cases fuel with
    | zero => omega
    | succ f =>
      simp only [Nat.add_zero] at hk
      simp [pollBreak, hk]
  | succ k ih =>
    intro i fuel hf hlt hk
    cases fuel with
    | zero => omega
    | succ f =>
      have h0 : check_scan_status (statuses i) = false := by
        have := hlt 0 (by omega)
        simpa using this
      have hlt' : ∀ j, j < k → check_scan_status (statuses (i + 1 + j)) = false := by
        intro j hj
        have e : i + 1 + j = i + (j + 1) := by omega
        rw [e]
        exact hlt (j + 1) (by omega)
      have hk' : check_scan_status (statuses (i + 1 + k)) = true := by
        have e : i + 1 + k = i + (k + 1) := by omega
        rw [e]
        exact hk
      have hrec := ih (i + 1) f (by omega) hlt' hk'
      have e : i + 1 + k = i + (k + 1) := by omega
      rw [e] at hrec
      simp [pollBreak, h0, hrec]

/-- If no status check ever reports completion, the polling loop never
exits, no matter how far it is unfolded: there is no poll-count limit. -/
lemma pollEvents_never (statuses : Nat → StatusOutcome)
    (h : ∀ n, check_scan_status (statuses n) = false) :
    ∀ fuel i, pollEvents statuses fuel i = none ∧ pollBreak statuses fuel i = none := by
  intro fuel
  induction fuel with
  | zero => intro i; exact ⟨rfl, rfl⟩
  | succ f ih =>
    intro i
    have := ih (i + 1)
    constructor
    · simp [pollEvents, h i, this.1]
    · simp [pollBreak, h i, this.2]

/-- The check on which the polling loop breaks did report completion. -/
lemma pollBreak_sound (statuses : Nat → StatusOutcome) :
    ∀ (fuel i j : Nat), pollBreak statuses fuel i = some j →
      check_scan_status (statuses j) = true := by
  intro fuel
  induction fuel with
  | zero => intro i j h; simp [pollBreak] at h
  | succ f ih =>
    intro i j h
    simp only [pollBreak] at h
    by_cases hc : check_scan_status (statuses i)
    · rw [if_pos hc] at h
      injection h with h
      subst h
      exact hc
    · rw [if_neg hc] at h
      exact ih (i + 1) j h

/-- The polling loop's behaviour depends only on which checks report
completion, not on the rest of the transport outcome: two status streams
whose checks agree produce identical polling traces. -/
lemma pollEvents_congr (sa sb : Nat → StatusOutcome)
    (h : ∀ n, check_scan_status (sa n) = check_scan_status (sb n)) :
    ∀ fuel i, pollEvents sa fuel i = pollEvents sb fuel i ∧
      pollBreak sa fuel i = pollBreak sb fuel i := by
  intro fuel
  induction fuel with
  | zero => intro i; exact ⟨rfl, rfl⟩
  | succ f ih =>
    intro i
    have hrec := ih (i + 1)
    constructor
    · simp only [pollEvents, h i, hrec.1]
    · simp only [pollBreak, h i, hrec.2]

/-- Number of status checks in `n` sleep-then-check iterations. -/
lemma count_join_replicate (n : Nat) :
    ((List.replicate n sleepCheck).flatten.count WorkerEvent.statusCheck) = n := by
  induction n with
  | zero => rfl
  | succ m ih =>
    have c : sleepCheck.count WorkerEvent.statusCheck = 1 := by decide
    simp only [List.replicate_succ, List.flatten_cons, List.count_append]
    omega

/-- The trace of a worker whose submission attempt produced a falsy
`status_url`: counter increment in the `try` block, then the `finally`
block's release and second increment; no sleep and no status check. -/
lemma worker_submit_fail (env : WorkerEnv) (fuel : Nat)
    (hp : parseOk env.stem = true)
    (hs : truthyOpt (submit_sbom_scan env.submitOutcome) = false) :
    scan_worker_events env fuel =
      some [WorkerEvent.counterInc, WorkerEvent.semRelease, WorkerEvent.counterInc] ∧
    worker_outcome env fuel = some LifecycleOutcome.FailedAtSubmission := by
  constructor
  · unfold scan_worker_events tryEvents
    rw [if_neg (by simp [hp]), if_pos (by simp [hs])]
    rfl
  · unfold worker_outcome
    rw [if_neg (by simp [hp]), if_pos (by simp [hs])]

/-- The atomic increment-and-read sequence realises counter values
`c + 1, …, c + n` in order. -/
lemma runCompletions_eq : ∀ (n c : Nat), runCompletions c n = (c + n, List.range' (c + 1) n) := by
  intro n
  induction n with
  | zero => intro c; rfl
  | succ m ih =>
    intro c
    have e := ih (c + 1)
    simp only [runCompletions, recordCompletion, e, Prod.mk.injEq]
    exact ⟨by omega, rfl⟩

/-! ## Claims -/

/-- C1: the claim says every artifact descriptor produces exactly one
increment of the shared progress counter, so the final counter equals the
number of descriptors.  The code violates this: on a parse failure (and
likewise on a submission failure) `scan_worker` increments the counter in
the early-return branch of the `try` block and then the `finally` block
increments it a second time, so one failed descriptor is counted twice.
This theorem evaluates the worker at a one-part filename stem (`"bad"`): the
run of that single descriptor performs two counter increments. -/
theorem C1_parse_failure_double_count :
    (scan_worker_events envParseFail 1).map (fun evs => evs.count WorkerEvent.counterInc)
      = some 2 ∧
    scan_worker_events envParseFail 1 =
      some [WorkerEvent.counterInc, WorkerEvent.semRelease, WorkerEvent.counterInc] := by
  constructor <;> rfl

/-- C2: at every reachable state of a run, at most `maxConc` lifecycles
simultaneously hold a gate slot (acquired slots minus released slots is
between 0 and `maxConc`), equivalently the semaphore's free-slot count stays
between 0 and `maxConc`.  The first conjunct grounds the hypothesis of the
second in the code: the shared actions of any completed worker have release
potential at most one and contain no acquire; the main loop's acquire for
each worker is placed in front of that worker's actions in `initSys`. -/
theorem C2_gate_bound :
    (∀ (env : WorkerEnv) (fuel : Nat) (evs : List WorkerEvent),
        scan_worker_events env fuel = some evs →
        mpn (sharedActions evs) ≤ 1 ∧ (sharedActions evs).count Action.acquire = 0) ∧
    (∀ (maxConc : Nat) (bodies : List (List Action)) (s : Sys),
        (∀ w ∈ bodies, mpn w ≤ 1) →
        Reach (initSys maxConc bodies) s →
        s.free ≤ maxConc ∧
        ((sumCount Action.acquire (initSys maxConc bodies).tasks : Int)
            - sumCount Action.acquire s.tasks)
          - ((sumCount Action.release (initSys maxConc bodies).tasks : Int)
            - sumCount Action.release s.tasks)
          = (maxConc : Int) - s.free ∧
        ((sumCount Action.acquire (initSys maxConc bodies).tasks : Int)
            - sumCount Action.acquire s.tasks)
          - ((sumCount Action.release (initSys maxConc bodies).tasks : Int)
            - sumCount Action.release s.tasks)
          ≤ (maxConc : Int)) := by
  constructor
  · intro env fuel evs h
    rcases scan_worker_shared env fuel evs h with e | e <;> rw [e] <;> exact ⟨by decide, by decide⟩
  · intro maxConc bodies s hb hreach
    have hfree : s.free + sumMpn s.tasks ≤ maxConc := by
      refine reach_potential maxConc hreach ?_
      have h0 : sumMpn (initSys maxConc bodies).tasks = 0 := sumMpn_init bodies hb
      have hif : (initSys maxConc bodies).free = maxConc := rfl
      omega
    have hacc := reach_gateAccount hreach
    have hinitfree : (initSys maxConc bodies).free = maxConc := rfl
    refine ⟨by omega, by omega, by omega⟩

/-- C2 witness: the bound holds at the initial state of a one-descriptor run
with ten slots, and the shared actions of a completed worker have release
potential at most one. -/
theorem C2_gate_bound_witness :
    mpn (sharedActions
      [WorkerEvent.counterInc, WorkerEvent.semRelease, WorkerEvent.counterInc]) ≤ 1 ∧
    (initSys 10 [[Action.release, Action.inc]]).free ≤ 10 := by
  constructor
  · exact (C2_gate_bound.1 envParseFail 1
      [WorkerEvent.counterInc, WorkerEvent.semRelease, WorkerEvent.counterInc] rfl).1
  · exact (C2_gate_bound.2 10 [[Action.release, Action.inc]]
      (initSys 10 [[Action.release, Action.inc]]) (by decide) Relation.ReflTransGen.refl).1

/-- C3: on every exit path of a started worker the gate slot is released
exactly once, and that release happens immediately before the task's final
counter update, because both live in the `finally` block and the `try` block
never releases; after all tasks finish, the free-slot count is back at
`maxConc`. -/
theorem C3_release_exactly_once :
    (∀ (env : WorkerEnv) (fuel : Nat) (evs : List WorkerEvent),
        tryEvents env fuel = some evs → WorkerEvent.semRelease ∉ evs) ∧
    (∀ (env : WorkerEnv) (fuel : Nat) (evs : List WorkerEvent),
        scan_worker_events env fuel = some evs →
        evs.count WorkerEvent.semRelease = 1 ∧
        ∃ pre, evs = pre ++ [WorkerEvent.semRelease, WorkerEvent.counterInc] ∧
          WorkerEvent.semRelease ∉ pre) ∧
    (∀ (maxConc : Nat) (bodies : List (List Action)) (s : Sys),
        (∀ w ∈ bodies, w.count Action.acquire = 0 ∧ w.count Action.release = 1) →
        Reach (initSys maxConc bodies) s →
        (∀ l ∈ s.tasks, l = []) →
        s.free = maxConc) := by
  refine ⟨tryEvents_no_release, ?_, ?_⟩
  · intro env fuel evs h
    have h' := h
    unfold scan_worker_events at h'
    simp only [Option.map_eq_some'] at h'
    obtain ⟨tryEvs, htry, rfl⟩ := h'
    have hno := tryEvents_no_release env fuel tryEvs htry
    constructor
    · rw [List.count_append]
      rw [List.count_eq_zero.mpr hno]
      decide
    · exact ⟨tryEvs, rfl, hno⟩
  · intro maxConc bodies s hb hreach hnil
    have hacc := reach_gateAccount hreach
    have hr0 : sumCount Action.release s.tasks = 0 := sumCount_all_nil _ _ hnil
    have ha0 : sumCount Action.acquire s.tasks = 0 := sumCount_all_nil _ _ hnil
    have hri : sumCount Action.release (initSys maxConc bodies).tasks = bodies.length := by
      simpa [initSys] using sumCount_init_release bodies fun w hw => (hb w hw).2
    have hai : sumCount Action.acquire (initSys maxConc bodies).tasks = bodies.length := by
      simpa [initSys] using sumCount_init_acquire bodies fun w hw => (hb w hw).1
    have hinitfree : (initSys maxConc bodies).free = maxConc := rfl
    omega

/-- C3 witness: a completed worker trace contains exactly one release, and
an empty run ends with the free-slot count at its capacity. -/
theorem C3_release_exactly_once_witness :
    [WorkerEvent.counterInc, WorkerEvent.semRelease,
      WorkerEvent.counterInc].count WorkerEvent.semRelease = 1 ∧
    (initSys 10 []).free = 10 := by
  constructor
  · exact (C3_release_exactly_once.2.1 envSubmitFail 3
      [WorkerEvent.counterInc, WorkerEvent.semRelease, WorkerEvent.counterInc] rfl).1
  · exact C3_release_exactly_once.2.2 10 [] (initSys 10 [])
      (by simp) Relation.ReflTransGen.refl (by simp [initSys])

/-- C4: `submit_sbom_scan` absorbs every non-success transport outcome —
connection failure, timeout, unreadable input file, 4xx/5xx HTTP status —
into the `None` return (the model's totality reflects that no exception
escapes the function), and a status token comes back only from a 202
acceptance whose payload carries it. -/
theorem C4_submit_never_throws :
    (∀ msg, submit_sbom_scan (SubmitOutcome.connError msg) = none) ∧
    (∀ msg, submit_sbom_scan (SubmitOutcome.timeoutErr msg) = none) ∧
    (∀ msg, submit_sbom_scan (SubmitOutcome.fileError msg) = none) ∧
    (∀ r : SubmitResponse, isHttpErrorStatus r.statusCode = true →
        submit_sbom_scan (SubmitOutcome.response r) = none) ∧
    (∀ r : SubmitResponse, r.statusCode ≠ 202 →
        submit_sbom_scan (SubmitOutcome.response r) = none) ∧
    (∀ (r : SubmitResponse) (tok : String),
        submit_sbom_scan (SubmitOutcome.response r) = some tok →
        r.statusCode = 202 ∧ r.statusUrl = some tok ∧
          isHttpErrorStatus r.statusCode = false) := by
  refine ⟨fun msg => rfl, fun msg => rfl, fun msg => rfl, ?_, ?_, ?_⟩
  · intro r h
    simp [submit_sbom_scan, h]
  · intro r h
    by_cases he : isHttpErrorStatus r.statusCode <;> simp [submit_sbom_scan, he, h]
  · intro r tok h
    by_cases he : isHttpErrorStatus r.statusCode
    · simp [submit_sbom_scan, he] at h
    · by_cases hc : r.statusCode = 202
      · simp only [submit_sbom_scan, he, if_false, hc, if_true, Bool.false_eq_true] at h
        exact ⟨hc, h, by simp [he]⟩
      · simp [submit_sbom_scan, he, hc] at h

/-- C4 witness: a 500 response yields `None`, and a 202 acceptance carrying
a token is confirmed as the only way to get one. -/
theorem C4_submit_never_throws_witness :
    submit_sbom_scan (SubmitOutcome.response ⟨500, "server error", none⟩) = none ∧
    (⟨202, "", some "api/status/7"⟩ : SubmitResponse).statusCode = 202 := by
  constructor
  · exact C4_submit_never_throws.2.2.2.1 ⟨500, "server error", none⟩ (by decide)
  · exact (C4_submit_never_throws.2.2.2.2.2 ⟨202, "", some "api/status/7"⟩
      "api/status/7" rfl).1

/-- C5: a transport error during a status check makes `check_scan_status`
report not-complete instead of raising; the polling loop treats it exactly
like an in-progress response — it keeps polling on the next interval (the
loop unfolds identically for any stream whose checks agree), and the loop
can never break on a transient error. -/
theorem C5_transient_failure_retries :
    (∀ msg, check_scan_status (StatusOutcome.netError msg) = false) ∧
    (∀ (statuses : Nat → StatusOutcome) (fuel i : Nat),
        check_scan_status (statuses i) = false →
        pollEvents statuses (fuel + 1) i
          = (pollEvents statuses fuel (i + 1)).map (sleepCheck ++ ·) ∧
        pollBreak statuses (fuel + 1) i = pollBreak statuses fuel (i + 1)) ∧
    (∀ sa sb : Nat → StatusOutcome,
        (∀ n, check_scan_status (sa n) = check_scan_status (sb n)) →
        ∀ fuel i, pollEvents sa fuel i = pollEvents sb fuel i) ∧
    (∀ (statuses : Nat → StatusOutcome) (fuel i j : Nat) (msg : String),
        pollBreak statuses fuel i = some j → statuses j ≠ StatusOutcome.netError msg) := by
  refine ⟨fun msg => rfl, ?_, ?_, ?_⟩
  · intro statuses fuel i h
    constructor
    · simp [pollEvents, h]
    · simp [pollBreak, h]
  · intro sa sb h fuel i
    exact (pollEvents_congr sa sb h fuel i).1
  · intro statuses fuel i j msg h heq
    have hs := pollBreak_sound statuses fuel i j h
    rw [heq] at hs
    simp [check_scan_status] at hs

/-- C5 witness: a stream of transient errors keeps the loop polling — one
unfolding consumes a sleep-and-check and continues. -/
theorem C5_transient_failure_retries_witness :
    pollBreak (fun _ => StatusOutcome.netError "reset") 1 0
      = pollBreak (fun _ => StatusOutcome.netError "reset") 0 1 := by
  exact (C5_transient_failure_retries.2.1 (fun _ => StatusOutcome.netError "reset") 0 0 rfl).2

/-- C6: a lifecycle whose submission returns a falsy `status_url` goes
straight to `FailedAtSubmission`: its trace is the try-block increment
followed by the `finally` release and increment, with no status check and no
polling-interval sleep. -/
theorem C6_rejected_goes_straight_to_failed :
    ∀ (env : WorkerEnv) (fuel : Nat),
      parseOk env.stem = true →
      truthyOpt (submit_sbom_scan env.submitOutcome) = false →
      scan_worker_events env fuel =
        some [WorkerEvent.counterInc, WorkerEvent.semRelease, WorkerEvent.counterInc] ∧
      worker_outcome env fuel = some LifecycleOutcome.FailedAtSubmission ∧
      [WorkerEvent.counterInc, WorkerEvent.semRelease,
        WorkerEvent.counterInc].count WorkerEvent.statusCheck = 0 ∧
      ∀ n : Nat, WorkerEvent.sleepSec n ∉
        [WorkerEvent.counterInc, WorkerEvent.semRelease, WorkerEvent.counterInc] := by
  intro env fuel hp hs
  have h := worker_submit_fail env fuel hp hs
  exact ⟨h.1, h.2, by decide, fun n => by simp⟩

/-- C6 witness: a connection-refused submission on a parseable filename. -/
theorem C6_rejected_goes_straight_to_failed_witness :
    scan_worker_events envSubmitFail 5 =
      some [WorkerEvent.counterInc, WorkerEvent.semRelease, WorkerEvent.counterInc] ∧
    worker_outcome envSubmitFail 5 = some LifecycleOutcome.FailedAtSubmission := by
  have h := C6_rejected_goes_straight_to_failed envSubmitFail 5 (by decide) rfl
  exact ⟨h.1, h.2.1⟩

/-- C7: a lifecycle whose checks report in-progress `k` times and then a
successful completion performs exactly `k + 1` status checks, each preceded
by a sleep of the configured interval (the trace is `k + 1` copies of
sleep-then-check), and terminates `Succeeded`. -/
theorem C7_k_polls_then_success :
    ∀ (env : WorkerEnv) (k fuel : Nat) (r : StatusResponse),
      parseOk env.stem = true →
      truthyOpt (submit_sbom_scan env.submitOutcome) = true →
      k < fuel →
      (∀ j, j < k → check_scan_status (env.statuses j) = false) →
      env.statuses k = StatusOutcome.response r →
      isHttpErrorStatus r.statusCode = false →
      r.isError = false →
      truthyOpt r.reportHtmlUrl = true →
      scan_worker_events env fuel =
        some ((List.replicate (k + 1) sleepCheck).flatten ++
          [WorkerEvent.semRelease, WorkerEvent.counterInc]) ∧
      ((List.replicate (k + 1) sleepCheck).flatten ++
          [WorkerEvent.semRelease, WorkerEvent.counterInc]).count WorkerEvent.statusCheck
        = k + 1 ∧
      worker_outcome env fuel = some LifecycleOutcome.Succeeded := by
  intro env k fuel r hp hs hf hlt hr hhttp herr hrep
  have hck : check_scan_status (env.statuses k) = true := by
    rw [hr]
    simp [check_scan_status, hhttp, herr, hrep]
  have hlt0 : ∀ j, j < k → check_scan_status (env.statuses (0 + j)) = false := by
    intro j hj
    simpa using hlt j hj
  have hck0 : check_scan_status (env.statuses (0 + k)) = true := by simpa using hck
  refine ⟨?_, ?_, ?_⟩
  · have hpoll := pollEvents_first_true env.statuses k 0 fuel hf hlt0 hck0
    unfold scan_worker_events tryEvents
    rw [if_neg (by simp [hp]), if_neg (by simp [hs]), hpoll]
    rfl
  · rw [List.count_append, count_join_replicate]
    have hc : ([WorkerEvent.semRelease, WorkerEvent.counterInc] :
        List WorkerEvent).count WorkerEvent.statusCheck = 0 := by decide
    omega
  · have hbreak := pollBreak_first_true env.statuses k 0 fuel hf hlt0 hck0
    simp only [Nat.zero_add] at hbreak
    unfold worker_outcome
    rw [if_neg (by simp [hp]), if_neg (by simp [hs]), hbreak]
    have hce : completionIsError (env.statuses k) = false := by
      rw [hr]
      simp [completionIsError, hhttp, herr]
    simp [hce]

/-- C7 witness: one in-progress check, then a successful completion: two
sleep-and-check iterations, outcome `Succeeded`. -/
theorem C7_k_polls_then_success_witness :
    scan_worker_events envPollTwice 2 =
      some ((List.replicate 2 sleepCheck).flatten ++
        [WorkerEvent.semRelease, WorkerEvent.counterInc]) ∧
    worker_outcome envPollTwice 2 = some LifecycleOutcome.Succeeded := by
  have h := C7_k_polls_then_success envPollTwice 1 2 respSuccess (by decide) rfl (by decide)
    (fun j hj => by
      have hj0 : j = 0 := by omega
      subst hj0
      rfl)
    rfl rfl rfl rfl
  exact ⟨h.1, h.2.2⟩

/-- C8: the lock-guarded `recordCompletion` invoked once from each of `N`
concurrently running tasks yields a final counter of exactly `N` under every
interleaving (no update is lost), and the snapshots the callers observe are
the distinct values `1, …, N` (no two callers see the same value). -/
theorem C8_no_lost_updates :
    (∀ (N free0 : Nat) (s : Sys),
        Reach ⟨free0, 0, List.replicate N [Action.inc]⟩ s →
        (∀ l ∈ s.tasks, l = []) →
        s.counter = N) ∧
    (∀ N : Nat, (runCompletions 0 N).1 = N ∧
        (runCompletions 0 N).2 = List.range' 1 N ∧
        (runCompletions 0 N).2.Nodup) := by
  constructor
  · intro N free0 s hreach hnil
    have hacc : s.counter + sumCount Action.inc s.tasks
        = 0 + sumCount Action.inc (List.replicate N [Action.inc]) :=
      reach_counterAccount hreach
    have h0 : sumCount Action.inc s.tasks = 0 := sumCount_all_nil _ _ hnil
    have hN := sumCount_replicate_inc N
    omega
  · intro N
    have e := runCompletions_eq N 0
    rw [e]
    exact ⟨by omega, rfl, List.nodup_range' 1 N 1 (by norm_num)⟩

/-- C8 witness: three one-increment tasks fully executed leave the counter
at three, and the three snapshots are distinct. -/
theorem C8_no_lost_updates_witness :
    (Sys.mk 10 3 [[], [], []]).counter = 3 ∧ (runCompletions 0 3).2.Nodup := by
  constructor
  · refine C8_no_lost_updates.1 3 10 (Sys.mk 10 3 [[], [], []]) ?_ (by simp)
    have s1 : SysStep ⟨10, 0, List.replicate 3 [Action.inc]⟩ ⟨10, 1, [[], [Action.inc], [Action.inc]]⟩ := by
      have := SysStep.inc ⟨10, 0, List.replicate 3 [Action.inc]⟩ 0 [] (by rfl)
      simpa using this
    have s2 : SysStep ⟨10, 1, [[], [Action.inc], [Action.inc]]⟩ ⟨10, 2, [[], [], [Action.inc]]⟩ := by
      have := SysStep.inc ⟨10, 1, [[], [Action.inc], [Action.inc]]⟩ 1 [] (by rfl)
      simpa using this
    have s3 : SysStep ⟨10, 2, [[], [], [Action.inc]]⟩ ⟨10, 3, [[], [], []]⟩ := by
      have := SysStep.inc ⟨10, 2, [[], [], [Action.inc]]⟩ 2 [] (by rfl)
      simpa using this
    exact Relation.ReflTransGen.head s1 (Relation.ReflTransGen.head s2
      (Relation.ReflTransGen.single s3))
  · exact (C8_no_lost_updates.2 3).2.2

/-- C9: the polling phase terminates exactly when some check reports
completion: the loop breaks precisely on the first completed check, having
performed first-index-plus-one checks; and when no check ever reports
completion the loop never exits however far it is unfolded — there is no
timeout, deadline, or maximum poll count. -/
theorem C9_polls_forever_without_terminal :
    (∀ (statuses : Nat → StatusOutcome) (fuel i j : Nat),
        pollBreak statuses fuel i = some j → check_scan_status (statuses j) = true) ∧
    (∀ (statuses : Nat → StatusOutcome) (k fuel : Nat), k < fuel →
        (∀ j, j < k → check_scan_status (statuses j) = false) →
        check_scan_status (statuses k) = true →
        pollBreak statuses fuel 0 = some k ∧
        pollEvents statuses fuel 0 = some ((List.replicate (k + 1) sleepCheck).flatten) ∧
        ((List.replicate (k + 1) sleepCheck).flatten.count WorkerEvent.statusCheck = k + 1)) ∧
    (∀ statuses : Nat → StatusOutcome,
        (∀ n, check_scan_status (statuses n) = false) →
        ∀ fuel i, pollEvents statuses fuel i = none ∧ pollBreak statuses fuel i = none) := by
  refine ⟨pollBreak_sound, ?_, pollEvents_never⟩
  intro statuses k fuel hf hlt hck
  have hlt0 : ∀ j, j < k → check_scan_status (statuses (0 + j)) = false := by
    intro j hj
    simpa using hlt j hj
  have hck0 : check_scan_status (statuses (0 + k)) = true := by simpa using hck
  have hbreak := pollBreak_first_true statuses k 0 fuel hf hlt0 hck0
  simp only [Nat.zero_add] at hbreak
  exact ⟨hbreak, pollEvents_first_true statuses k 0 fuel hf hlt0 hck0, count_join_replicate (k + 1)⟩

/-- C9 witness: with every check a transient failure the loop is still
running after 50 unfoldings, and with a first-check completion it breaks
after exactly one check. -/
theorem C9_polls_forever_without_terminal_witness :
    pollEvents (fun _ => StatusOutcome.netError "down") 50 0 = none ∧
    pollBreak (fun _ => StatusOutcome.response respSuccess) 1 0 = some 0 := by
  constructor
  · exact (C9_polls_forever_without_terminal.2.2 (fun _ => StatusOutcome.netError "down")
      (fun n => rfl) 50 0).1
  · exact (C9_polls_forever_without_terminal.2.1 (fun _ => StatusOutcome.response respSuccess)
      0 1 (by decide) (fun j hj => by omega) rfl).1

/-- C10 (implicit): a 202 acceptance whose payload has no `statusUrl` field
makes `submit_sbom_scan` return `None`, and the worker then treats the
artifact exactly like a submission failure — `FailedAtSubmission`, no
polling — even though the server accepted the scan. -/
theorem C10_accepted_without_status_url :
    (∀ bodyText : String,
        submit_sbom_scan (SubmitOutcome.response ⟨202, bodyText, none⟩) = none) ∧
    (∀ (env : WorkerEnv) (fuel : Nat) (bodyText : String),
        parseOk env.stem = true →
        env.submitOutcome = SubmitOutcome.response ⟨202, bodyText, none⟩ →
        scan_worker_events env fuel =
          some [WorkerEvent.counterInc, WorkerEvent.semRelease, WorkerEvent.counterInc] ∧
        worker_outcome env fuel = some LifecycleOutcome.FailedAtSubmission) := by
  constructor
  · intro bodyText
    rfl
  · intro env fuel bodyText hp hsub
    refine worker_submit_fail env fuel hp ?_
    rw [hsub]
    rfl

/-- C10 witness: a 202 acceptance with an empty payload on a parseable
filename never reaches the polling phase. -/
theorem C10_accepted_without_status_url_witness :
    scan_worker_events ⟨"app_build_id1", SubmitOutcome.response ⟨202, "{}", none⟩,
        fun _ => StatusOutcome.netError "n"⟩ 4 =
      some [WorkerEvent.counterInc, WorkerEvent.semRelease, WorkerEvent.counterInc] ∧
    worker_outcome ⟨"app_build_id1", SubmitOutcome.response ⟨202, "{}", none⟩,
        fun _ => StatusOutcome.netError "n"⟩ 4 = some LifecycleOutcome.FailedAtSubmission := by
  exact C10_accepted_without_status_url.2
    ⟨"app_build_id1", SubmitOutcome.response ⟨202, "{}", none⟩,
      fun _ => StatusOutcome.netError "n"⟩ 4 "{}" (by decide) rfl

end SbomScanner
